import Mathlib

/-!
Shallow embedding of `merge_taxonomic_classifications.py`: per-source parsers
(Kaiju, Kraken, CLARK-S), the sqlite-backed merge store (modelled as a list of
rows with `readname` as primary key), the merge pipeline of `main`, and the
merged-classifications summary.  Files are modelled as lists of lines,
Python exceptions as an explicit error type.
-/

set_option autoImplicit false

deriving instance DecidableEq for Except

namespace MergeTax

/-- Python exceptions and exits that the script can raise. -/
inductive PyErr where
  | indexError
  | valueError
  | unboundLocalError
  | integrityError
  | zeroDivisionError
deriving DecidableEq, Repr

/-- One row of the `merged` table / one tuple yielded by a parser:
`(classified, readname, taxid, source)`. -/
structure Row where
  classified : String
  readname : String
  taxid : Int
  source : String
deriving DecidableEq, Repr

/-- Per-source totals recorded in `self.reads` after a parser is exhausted:
`reads[src]`, `reads["classified_"+src]`, `reads["unclassified_"+src]`. -/
structure SourceReadCounts where
  total : Nat
  classified : Nat
  unclassified : Nat
deriving DecidableEq, Repr

/-- Python `str.split()` with no separator: split on whitespace runs,
discarding empty fields. -/
def pySplitWs (line : String) : List String :=
  ((line.data.splitOnP fun c => c.isWhitespace).map String.mk).filter fun f => f ≠ ""

/-- Python `line.split(",")`: split on every comma, keeping empty fields
(`"".split(",") == [""]`). -/
def pySplitComma (line : String) : List String :=
  (line.data.splitOn ',').map String.mk

/-- Strip leading and trailing whitespace from a character list. -/
def trimChars (cs : List Char) : List Char :=
  (((cs.dropWhile fun c => c.isWhitespace).reverse.dropWhile fun c => c.isWhitespace)).reverse

/-- Python `int(s)` on a string: strips surrounding whitespace, allows an
optional sign followed by at least one digit; `none` models `ValueError`. -/
def pyInt (s : String) : Option Int :=
  let core : List Char → Option Nat := fun cs =>
    if cs ≠ [] ∧ cs.all (fun c => c.isDigit)
    then some (cs.foldl (fun n c => 10 * n + (c.toNat - 48)) 0)
    else none
  match trimChars s.data with
  | '+' :: rest => (core rest).map fun n => (n : Int)
  | '-' :: rest => (core rest).map fun n => -(n : Int)
  | cs => (core cs).map fun n => (n : Int)

/-- Python list indexing `xs[i]`, raising `IndexError` when out of range. -/
def pyIndex (xs : List String) (i : Nat) : Except PyErr String :=
  match xs.get? i with
  | some x => .ok x
  | none => .error .indexError

/-- The body of the Kaiju/Kraken loop on one line (the two functions are
verbatim duplicates up to the source tag): `splitline = line.split()`,
`classification = splitline[0]`, `readname = splitline[1]`,
`taxid = int(splitline[2])`. -/
def kkLine (source line : String) : Except PyErr Row := do
  let splitline := pySplitWs line
  let classification ← pyIndex splitline 0
  let readname ← pyIndex splitline 1
  let f2 ← pyIndex splitline 2
  match pyInt f2 with
  | some taxid => .ok ⟨classification, readname, taxid, source⟩
  | none => .error .valueError

/-- The conditional `yield` at the bottom of every parser loop:
`if classified_only and classification == "C": yield ...`,
`elif classified_only: pass`, `else: yield ...`. -/
def yieldRow (classified_only : Bool) (row : Row) : List Row :=
  if classified_only && (row.classified == "C") then [row]
  else if classified_only then []
  else [row]

/-- The Kaiju/Kraken `for num, line in enumerate(f, start=1)` loop.
`num` counts processed lines, `cls` counts lines whose flag is `"C"`;
returns the yielded rows together with the final `num` and `cls`. -/
def parseKKGo (source : String) (classified_only : Bool) :
    List String → Nat → Nat → Except PyErr (List Row × Nat × Nat)
  | [], num, cls => .ok ([], num, cls)
  | line :: rest, num, cls =>
    match kkLine source line with
    | .error e => .error e
    | .ok row =>
      let isC := row.classified == "C"
      match parseKKGo source classified_only rest (num + 1) (if isC then cls + 1 else cls) with
      | .error e => .error e
      | .ok (rows, n, c) => .ok (yieldRow classified_only row ++ rows, n, c)

/-- Shared embedding of `Merger.parse_kaiju` / `Merger.parse_kraken`: on an
empty file the trailing `self.reads[...] = num` raises `UnboundLocalError`
(`num` was never bound); otherwise the counts are
`(num, classifications, num - classifications)`. -/
def parseKK (source : String) (classified_only : Bool) (lines : List String) :
    Except PyErr (List Row × SourceReadCounts) :=
  if lines.isEmpty then .error .unboundLocalError
  else
    match parseKKGo source classified_only lines 0 0 with
    | .error e => .error e
    | .ok (rows, num, cls) => .ok (rows, ⟨num, cls, num - cls⟩)

/-- Embedding of `Merger.parse_kaiju`. -/
def parse_kaiju : Bool → List String → Except PyErr (List Row × SourceReadCounts) :=
  parseKK "kaiju"

/-- Embedding of `Merger.parse_kraken`. -/
def parse_kraken : Bool → List String → Except PyErr (List Row × SourceReadCounts) :=
  parseKK "kraken"

/-- Python `s.endswith(suffix)` for a literal suffix. -/
def strEndsWith (s suffix : String) : Bool :=
  suffix.data.isSuffixOf s.data

/-- Python slicing `s[:-2]`: drop the last two characters. -/
def dropLast2 (s : String) : String :=
  String.mk s.data.dropLast.dropLast

/-- The readname computation of `parse_clarks`:
`splitline[0][:-2]` when field 0 ends with `"/1"` or `"/2"`, else field 0. -/
def clarksReadname (f0 : String) : String :=
  if strEndsWith f0 "/1" || strEndsWith f0 "/2" then dropLast2 f0 else f0

/-- The body of the CLARK-S loop on one line.  The state `st` holds the values
of the Python locals `classification`/`taxid` from the previous iteration
(`none` before the first binding).  A row with no field 2 hits the bare
`except IndexError` branch, which only logs: control falls through to the
`yield` with the stale `classification`/`taxid` (raising `UnboundLocalError`
when there are none).  Returns the row reaching the `yield`, the next
`classification`/`taxid` values, and whether `classifications` was
incremented. -/
def clarksStep (line : String) (st : Option (String × Int)) :
    Except PyErr (Row × (String × Int) × Bool) :=
  let splitline := pySplitComma line
  match pyIndex splitline 0 with
  | .error e => .error e
  | .ok f0 =>
    let readname := clarksReadname f0
    match splitline.get? 2 with
    | some f2 =>
      match pyInt f2 with
      | some v => .ok (⟨"C", readname, v, "clarks"⟩, ("C", v), true)
      | none => .ok (⟨"U", readname, 0, "clarks"⟩, ("U", 0), false)
    | none =>
      match st with
      | none => .error .unboundLocalError
      | some (cSt, tSt) => .ok (⟨cSt, readname, tSt, "clarks"⟩, (cSt, tSt), false)

/-- The CLARK-S `for num, line in enumerate(f, start=1)` loop: `num` counts
processed lines (malformed rows included), `cls` counts the
`classifications += 1` increments. -/
def clarksGo (classified_only : Bool) :
    List String → Option (String × Int) → Nat → Nat → Except PyErr (List Row × Nat × Nat)
  | [], _, num, cls => .ok ([], num, cls)
  | line :: rest, st, num, cls =>
    match clarksStep line st with
    | .error e => .error e
    | .ok (row, nextSt, incr) =>
      match clarksGo classified_only rest (some nextSt) (num + 1) (if incr then cls + 1 else cls) with
      | .error e => .error e
      | .ok (rows, n, c) => .ok (yieldRow classified_only row ++ rows, n, c)

/-- Embedding of `Merger.parse_clarks`: `f.readline()` drops the header line;
with no data lines the trailing `self.reads["clarks"] = num` raises
`UnboundLocalError`. -/
def parse_clarks (classified_only : Bool) (lines : List String) :
    Except PyErr (List Row × SourceReadCounts) :=
  if lines.tail.isEmpty then .error .unboundLocalError
  else
    match clarksGo classified_only lines.tail none 0 0 with
    | .error e => .error e
    | .ok (rows, num, cls) => .ok (rows, ⟨num, cls, num - cls⟩)

/-! ## The merge store

The sqlite table `merged (classified TEXT, readname TEXT PRIMARY KEY, taxid INT,
source TEXT)` is modelled as a list of rows whose `readname`s are the keys. -/

/-- The state of the `merged` table. -/
abbrev Store := List Row

/-- Lookup of the (unique) row with the given `readname`. -/
def findRead (s : Store) (r : String) : Option Row :=
  s.find? fun row => row.readname == r

/-- Plain sqlite `INSERT INTO merged VALUES (?, ?, ?, ?)`: violating the
`readname` primary key raises `IntegrityError`. -/
def sqlInsert (s : Store) (x : Row) : Except PyErr Store :=
  if (findRead s x.readname).isSome then .error .integrityError
  else .ok (s ++ [x])

/-- Sqlite `INSERT OR REPLACE INTO merged VALUES (?, ?, ?, ?)`: an existing
row with the same `readname` is deleted and the new row inserted. -/
def sqlInsertOrReplace (s : Store) (x : Row) : Store :=
  (s.filter fun row => row.readname != x.readname) ++ [x]

/-- Embedding of `Merger.insert_first`: executes a plain `INSERT` for every
yielded row (the 100k-row chunking of `grouper` does not change the insert
sequence and is dropped). -/
def insert_first (rows : List Row) : Except PyErr Store :=
  rows.foldlM sqlInsert []

/-- Embedding of `Merger.insert_replace`: executes `INSERT OR REPLACE` for
every yielded row. -/
def insert_replace (s : Store) (rows : List Row) : Store :=
  rows.foldl sqlInsertOrReplace s

/-- Bytewise lexicographic `≤` on character lists. -/
def lexLeGo : List Char → List Char → Bool
  | [], _ => true
  | _ :: _, [] => false
  | a :: as, b :: bs => if a < b then true else if b < a then false else lexLeGo as bs

/-- Bytewise lexicographic `≤` on strings, sqlite's ordering on `TEXT`. -/
def lexLe (a b : String) : Bool :=
  lexLeGo a.data b.data

/-- Insert a row into a list kept sorted by `readname` ascending. -/
def insertSorted (a : Row) : List Row → List Row
  | [] => [a]
  | b :: l => if lexLe a.readname b.readname then a :: b :: l else b :: insertSorted a l

/-- Sort the store by `readname` ascending (the `ORDER BY readname`). -/
def sortByReadname (s : Store) : List Row :=
  s.foldr insertSorted []

/-- Embedding of `Merger.get_merged`:
`SELECT classified, readname, taxid FROM merged ORDER BY readname`. -/
def get_merged (s : Store) : List (String × String × Int) :=
  (sortByReadname s).map fun r => (r.classified, r.readname, r.taxid)

/-- Embedding of `Merger.count_sources`:
`SELECT source, classified, Count(classified) FROM merged GROUP BY source, classified`,
one `(source, classified, count)` triple per group present in the store. -/
def count_sources (s : Store) : List (String × String × Nat) :=
  ((s.map fun r => (r.source, r.classified)).dedup).map fun p =>
    (p.1, p.2, (s.filter fun r => r.source == p.1 && r.classified == p.2).length)

/-! ## Merge-order validation and the merge phase of `main` -/

/-- The `valid_names` lookup of `Merger.validate_merge_order`; the parser
method paired with each name is identified by the name itself. -/
def valid_names (name : String) : Option String :=
  if name == "kaiju" then some "kaiju"
  else if name == "kraken" then some "kraken"
  else if name == "clarks" then some "clarks"
  else none

/-- The loop of `validate_merge_order`: a `KeyError` on any token makes the
script `exit(2)`; otherwise the looked-up entries are collected in order. -/
def validateGo : List String → Except Nat (List String)
  | [] => .ok []
  | name :: rest =>
    match valid_names name with
    | none => .error 2
    | some v =>
      match validateGo rest with
      | .error e => .error e
      | .ok vs => .ok (v :: vs)

/-- Embedding of `Merger.validate_merge_order`: split the merge-order string
on commas and look every token up in `valid_names`; an unknown token exits
with status 2. -/
def validate_merge_order (merge_order : String) : Except Nat (List String) :=
  validateGo (pySplitComma merge_order)

/-- Dispatch from a validated source name to its parser, as the
`(name, parser)` pairs of `valid_names` do. -/
def run_parse (name : String) (classified_only : Bool) (lines : List String) :
    Except PyErr (List Row × SourceReadCounts) :=
  if name == "kaiju" then parse_kaiju classified_only lines
  else if name == "kraken" then parse_kraken classified_only lines
  else parse_clarks classified_only lines

/-- The `source_files` dict of `main`, mapping a source name to its input. -/
def source_files (kaiju kraken clarks : List String) (name : String) : List String :=
  if name == "kaiju" then kaiju
  else if name == "kraken" then kraken
  else clarks

/-- An error terminating `main`: an `exit(code)` or a propagated exception. -/
inductive MainErr where
  | exited (code : Nat)
  | py (e : PyErr)
deriving DecidableEq, Repr

/-- The `for source_name, parser in valid_merge_order[1:]` loop of `main`:
each remaining source is parsed with `classified_only=True` and applied with
`insert_replace`; a parser exception terminates the run. -/
def mainMergeGo (kaiju kraken clarks : List String) :
    List String → Store → Except MainErr Store
  | [], s => .ok s
  | name :: rest, s =>
    match run_parse name true (source_files kaiju kraken clarks name) with
    | .error e => .error (.py e)
    | .ok (rows, _counts) => mainMergeGo kaiju kraken clarks rest (insert_replace s rows)

/-- The merge phase of `main`: validate the merge order, `insert_first` the
first source unfiltered, then `insert_replace` every remaining source parsed
with `classified_only=True`.  `valid_merge_order[0]` on an empty order raises
`IndexError` (unreachable: splitting never yields an empty token list). -/
def main_merge (merge_order : String) (kaiju kraken clarks : List String) :
    Except MainErr Store :=
  match validate_merge_order merge_order with
  | .error code => .error (.exited code)
  | .ok [] => .error (.py .indexError)
  | .ok (first :: rest) =>
    match run_parse first false (source_files kaiju kraken clarks first) with
    | .error e => .error (.py e)
    | .ok (rows, _counts) =>
      match insert_first rows with
      | .error e => .error (.py e)
      | .ok s => mainMergeGo kaiju kraken clarks rest s

/-- The merge phase on already-parsed record sequences: source 0's full
sequence is bulk-inserted, every later source contributes the rows a
`classified_only=True` parse yields, namely those whose flag is `"C"`. -/
def merge_records : List (List Row) → Except PyErr Store
  | [] => .error .indexError
  | first :: rest =>
    match insert_first first with
    | .error e => .error e
    | .ok s =>
      .ok (rest.foldl (fun st rows => insert_replace st (rows.filter fun r => r.classified == "C")) s)

/-! ## The merged-classifications summary of `main` -/

/-- Sum of the group counts with flag `"C"`, as `classified_total` in `main`. -/
def classified_total (s : Store) : Nat :=
  (((count_sources s).filter fun c => c.2.1 == "C").map fun c => c.2.2).sum

/-- Sum of the group counts with flag `"U"`, as `unclassified_total` in `main`. -/
def unclassified_total (s : Store) : Nat :=
  (((count_sources s).filter fun c => c.2.1 == "U").map fun c => c.2.2).sum

/-- Python `/` on two numbers: raises `ZeroDivisionError` on a zero
denominator, otherwise exact division (floats modelled as rationals). -/
def pyDiv (a b : ℚ) : Except PyErr ℚ :=
  if b = 0 then .error .zeroDivisionError else .ok (a / b)

/-- What the merged-classifications summary logs: whether each header line is
emitted, the per-source count lines, and the two grand-total percentages. -/
structure MergedSummary where
  classifiedHeader : Bool
  unclassifiedHeader : Bool
  classifiedLines : List (String × Nat)
  unclassifiedLines : List (String × Nat)
  totalClassifiedPct : ℚ
  totalUnclassifiedPct : ℚ
deriving DecidableEq, Repr

/-- Embedding of the merged-classifications summary block of `main`:
the two header lines are printed only under `if classified_total:` /
`if unclassified_total:`, but the two `Total ...` lines divide by
`classified_total + unclassified_total` unconditionally. -/
def merged_summary (s : Store) : Except PyErr MergedSummary :=
  let ct := classified_total s
  let ut := unclassified_total s
  let cLines := ((count_sources s).filter fun c => c.2.1 == "C").map fun c => (c.1, c.2.2)
  let uLines := ((count_sources s).filter fun c => c.2.1 == "U").map fun c => (c.1, c.2.2)
  match pyDiv (100 * (ct : ℚ)) ((ct : ℚ) + (ut : ℚ)) with
  | .error e => .error e
  | .ok pc =>
    match pyDiv (100 * (ut : ℚ)) ((ct : ℚ) + (ut : ℚ)) with
    | .error e => .error e
    | .ok pu => .ok ⟨decide (ct ≠ 0), decide (ut ≠ 0), cLines, uLines, pc, pu⟩

/-! ## Lemmas about merge-order validation -/

theorem valid_names_some {n m : String} (h : valid_names n = some m) : m = n := by
  simp only [valid_names] at h
  split at h
  · cases h; exact (beq_iff_eq.mp (by assumption)).symm
  · split at h
    · cases h; exact (beq_iff_eq.mp (by assumption)).symm
    · split at h
      · cases h; exact (beq_iff_eq.mp (by assumption)).symm
      · cases h

theorem validateGo_ok : ∀ ts : List String, (∀ n ∈ ts, valid_names n ≠ none) →
    validateGo ts = .ok ts
  | [], _ => rfl
  | a :: ts, h => by
    cases hv : valid_names a with
    | none => exact absurd hv (h a (by simp))
    | some v =>
      have hrec := validateGo_ok ts fun n hn => h n (List.mem_cons_of_mem _ hn)
      have hva : v = a := valid_names_some hv
      simp [validateGo, hv, hrec, hva]

theorem validateGo_bad : ∀ ts : List String, (∃ n ∈ ts, valid_names n = none) →
    validateGo ts = .error 2
  | [], h => by simp at h
  | a :: ts, h => by
    cases hv : valid_names a with
    | none => simp [validateGo, hv]
    | some v =>
      obtain ⟨n, hn, hne⟩ := h
      rcases List.mem_cons.mp hn with rfl | hmem
      · rw [hv] at hne; cases hne
      · have hrec := validateGo_bad ts ⟨n, hmem, hne⟩
        simp [validateGo, hv, hrec]

theorem validateGo_ok_eq : ∀ ts l : List String, validateGo ts = .ok l → l = ts
  | [], l, h => by simpa [validateGo] using h.symm
  | a :: ts, l, h => by
    simp only [validateGo] at h
    cases hv : valid_names a with
    | none => rw [hv] at h; cases h
    | some v =>
      rw [hv] at h
      cases hg : validateGo ts with
      | error e => rw [hg] at h; cases h
      | ok vs =>
        rw [hg] at h
        cases h
        rw [validateGo_ok_eq ts vs hg, valid_names_some hv]

/-! ## Lemmas about the merge store -/

theorem findRead_eq_none_iff (s : Store) (r : String) :
    findRead s r = none ↔ r ∉ s.map Row.readname := by
  simp [findRead, List.find?_eq_none, List.mem_map]

theorem findRead_isSome_iff (s : Store) (r : String) :
    (findRead s r).isSome = true ↔ r ∈ s.map Row.readname := by
  simp [findRead, List.find?_isSome, List.mem_map]

theorem foldlM_sqlInsert_ok : ∀ (rows : List Row) (acc st : Store),
    rows.foldlM sqlInsert acc = .ok st → st = acc ++ rows
  | [], acc, st, h => by simpa [List.foldlM_nil, pure, Except.pure] using h.symm
  | x :: rows, acc, st, h => by
    simp only [List.foldlM_cons] at h
    unfold sqlInsert at h
    split at h
    · cases h
    · simp only [bind, Except.bind] at h
      have := foldlM_sqlInsert_ok rows (acc ++ [x]) st h
      simpa [List.append_assoc] using this

theorem foldlM_sqlInsert_nodup : ∀ (rows acc : List Row),
    (((acc ++ rows).map Row.readname).Nodup) →
    rows.foldlM sqlInsert acc = .ok (acc ++ rows)
  | [], acc, _ => by simp [List.foldlM_nil, pure, Except.pure]
  | x :: rows, acc, h => by
    have hx : x.readname ∉ acc.map Row.readname := by
      simp only [List.map_append, List.map_cons, List.nodup_append, List.nodup_cons] at h
      intro hmem
      exact h.2.2 hmem (List.mem_cons_self _ _)
    have hnone : findRead acc x.readname = none := (findRead_eq_none_iff acc x.readname).mpr hx
    have hfs : (findRead acc x.readname).isSome = false := by rw [hnone]; rfl
    have hrec := foldlM_sqlInsert_nodup rows (acc ++ [x]) (by simpa [List.append_assoc] using h)
    simp only [List.foldlM_cons, sqlInsert, hfs, Bool.false_eq_true, if_false, bind, Except.bind]
    simpa [List.append_assoc] using hrec

theorem foldlM_sqlInsert_dup : ∀ (rows acc : List Row),
    ((acc.map Row.readname).Nodup) → ¬(((acc ++ rows).map Row.readname).Nodup) →
    rows.foldlM sqlInsert acc = .error .integrityError
  | [], acc, hacc, h => absurd (by simpa using hacc) h
  | x :: rows, acc, hacc, h => by
    cases hf : findRead acc x.readname with
    | some row =>
      have : (findRead acc x.readname).isSome = true := by rw [hf]; rfl
      simp [List.foldlM_cons, sqlInsert, this, bind, Except.bind]
    | none =>
      have hx : x.readname ∉ acc.map Row.readname := (findRead_eq_none_iff acc x.readname).mp hf
      have hacc' : ((acc ++ [x]).map Row.readname).Nodup := by
        simp only [List.map_append, List.map_cons, List.map_nil, List.nodup_append,
          List.nodup_cons, List.nodup_nil]
        refine ⟨hacc, ⟨by simp, trivial⟩, ?_⟩
        intro a ha hb
        simp only [List.mem_cons, List.not_mem_nil, or_false] at hb
        subst hb
        exact hx ha
      have h' : ¬((((acc ++ [x]) ++ rows).map Row.readname).Nodup) := by
        simpa [List.append_assoc] using h
      have hrec := foldlM_sqlInsert_dup rows (acc ++ [x]) hacc' h'
      have hfs : (findRead acc x.readname).isSome = false := by rw [hf]; rfl
      simp [List.foldlM_cons, sqlInsert, hfs, bind, Except.bind, hrec]

theorem insert_first_ok_iff (rows : List Row) :
    (∃ st, insert_first rows = .ok st) ↔ ((rows.map Row.readname).Nodup) := by
  constructor
  · rintro ⟨st, hst⟩
    by_contra hdup
    have := foldlM_sqlInsert_dup rows [] (by simp) (by simpa using hdup)
    rw [insert_first, this] at hst
    cases hst
  · intro h
    exact ⟨rows, by simpa [insert_first] using foldlM_sqlInsert_nodup rows [] (by simpa using h)⟩

theorem insert_first_nodup (rows : List Row) (h : ((rows.map Row.readname).Nodup)) :
    insert_first rows = .ok rows := by
  simpa [insert_first] using foldlM_sqlInsert_nodup rows [] (by simpa using h)

theorem insert_first_ok_eq (rows : List Row) (st : Store) (h : insert_first rows = .ok st) :
    st = rows := by
  simpa using foldlM_sqlInsert_ok rows [] st h

theorem findRead_cons (a : Row) (s : Store) (r : String) :
    findRead (a :: s) r = if a.readname = r then some a else findRead s r := by
  simp only [findRead, List.find?_cons]
  by_cases h : a.readname = r
  · have hb : (a.readname == r) = true := by simpa [beq_iff_eq] using h
    simp [hb, h]
  · have hb : (a.readname == r) = false := by simpa [beq_iff_eq] using h
    simp [hb, h]

theorem findRead_insertOrReplace (s : Store) (x : Row) (r : String) :
    findRead (sqlInsertOrReplace s x) r =
      if x.readname = r then some x else findRead s r := by
  induction s with
  | nil =>
    show findRead [x] r = _
    rw [findRead_cons]
  | cons a s ih =>
    by_cases hax : (a.readname != x.readname) = true
    · have hstep : sqlInsertOrReplace (a :: s) x = a :: sqlInsertOrReplace s x := by
        simp [sqlInsertOrReplace, List.filter_cons, hax]
      rw [hstep, findRead_cons, ih, findRead_cons]
      by_cases har : a.readname = r
      · have hxr : ¬x.readname = r := fun hr => (bne_iff_ne.mp hax) (har.trans hr.symm)
        simp [har, hxr]
      · simp [har]
    · have hstep : sqlInsertOrReplace (a :: s) x = sqlInsertOrReplace s x := by
        simp [sqlInsertOrReplace, List.filter_cons, hax]
      rw [hstep, ih, findRead_cons]
      have hax' : a.readname = x.readname := by
        simpa [bne_iff_ne] using hax
      by_cases hxr : x.readname = r
      · simp [hxr]
      · have har : ¬a.readname = r := fun hr => hxr (hax' ▸ hr)
        simp [hxr, har]

/-- The last row for key `r` in a yielded sequence, the survivor of a chain
of `INSERT OR REPLACE` statements for that key. -/
def lastMatch : List Row → String → Option Row
  | [], _ => none
  | x :: rows, r =>
    match lastMatch rows r with
    | some y => some y
    | none => if x.readname = r then some x else none

theorem findRead_insert_replace (rows : List Row) : ∀ (s : Store) (r : String),
    findRead (insert_replace s rows) r =
      match lastMatch rows r with
      | some y => some y
      | none => findRead s r := by
  induction rows with
  | nil => intro s r; simp [insert_replace, lastMatch]
  | cons x rows ih =>
    intro s r
    have hstep : insert_replace s (x :: rows) = insert_replace (sqlInsertOrReplace s x) rows := by
      simp [insert_replace, List.foldl_cons]
    rw [hstep, ih, findRead_insertOrReplace]
    simp only [lastMatch]
    cases lastMatch rows r with
    | some y => simp
    | none => by_cases hxr : x.readname = r <;> simp [hxr]

theorem lastMatch_append (a b : List Row) (r : String) :
    lastMatch (a ++ b) r =
      match lastMatch b r with
      | some y => some y
      | none => lastMatch a r := by
  induction a with
  | nil =>
    simp only [List.nil_append]
    cases hb : lastMatch b r <;> simp [lastMatch, hb]
  | cons x a ih =>
    have h1 : lastMatch ((x :: a) ++ b) r =
        match lastMatch (a ++ b) r with
        | some y => some y
        | none => if x.readname = r then some x else none := by
      simp [lastMatch]
    rw [h1, ih]
    cases hb : lastMatch b r with
    | some y => simp [lastMatch, hb]
    | none =>
      cases ha : lastMatch a r with
      | some z => simp [lastMatch, ha]
      | none => simp [lastMatch, ha]

theorem findRead_isSome_insert_replace (s : Store) (rows : List Row) (r : String)
    (h : (findRead s r).isSome = true) :
    (findRead (insert_replace s rows) r).isSome = true := by
  rw [findRead_insert_replace]
  cases lastMatch rows r with
  | some y => rfl
  | none => exact h

/-! ## Lemmas about the sorted output -/

theorem mem_insertSorted (x a : Row) : ∀ l : List Row,
    (x ∈ insertSorted a l ↔ x = a ∨ x ∈ l)
  | [] => by simp [insertSorted]
  | b :: l => by
    by_cases hle : lexLe a.readname b.readname = true
    · simp [insertSorted, hle]
    · have ih := mem_insertSorted x a l
      simp only [insertSorted, if_neg hle, List.mem_cons, ih]
      tauto

theorem mem_sortByReadname (x : Row) : ∀ s : Store, (x ∈ sortByReadname s ↔ x ∈ s)
  | [] => by simp [sortByReadname]
  | a :: s => by
    have ih := mem_sortByReadname x s
    simp only [sortByReadname, List.foldr_cons] at *
    rw [mem_insertSorted, ih, List.mem_cons]

/-! ## Lemmas about the parsers -/

theorem parseKKGo_le (source : String) (co : Bool) : ∀ (ls : List String) (n c : Nat),
    c ≤ n → ∀ rows n' c', parseKKGo source co ls n c = .ok (rows, n', c') → c' ≤ n'
  | [], n, c, hcn, rows, n', c', h => by
    simp only [parseKKGo, Except.ok.injEq, Prod.mk.injEq] at h
    obtain ⟨-, rfl, rfl⟩ := h
    exact hcn
  | line :: ls, n, c, hcn, rows, n', c', h => by
    simp only [parseKKGo] at h
    split at h
    · cases h
    · rename_i row heq
      split at h
      · cases h
      · rename_i rows2 n2 c2 heq2
        simp only [Except.ok.injEq, Prod.mk.injEq] at h
        obtain ⟨-, rfl, rfl⟩ := h
        have hcn' : (if (row.classified == "C") = true then c + 1 else c) ≤ n + 1 := by
          split <;> omega
        exact parseKKGo_le source co ls (n + 1) _ hcn' _ _ _ heq2

theorem clarksGo_le (co : Bool) : ∀ (ls : List String) (st : Option (String × Int)) (n c : Nat),
    c ≤ n → ∀ rows n' c', clarksGo co ls st n c = .ok (rows, n', c') → c' ≤ n'
  | [], st, n, c, hcn, rows, n', c', h => by
    simp only [clarksGo, Except.ok.injEq, Prod.mk.injEq] at h
    obtain ⟨-, rfl, rfl⟩ := h
    exact hcn
  | line :: ls, st, n, c, hcn, rows, n', c', h => by
    simp only [clarksGo] at h
    split at h
    · cases h
    · rename_i row nextSt incr heq
      split at h
      · cases h
      · rename_i rows2 n2 c2 heq2
        simp only [Except.ok.injEq, Prod.mk.injEq] at h
        obtain ⟨-, rfl, rfl⟩ := h
        have hcn' : (if incr = true then c + 1 else c) ≤ n + 1 := by
          split <;> omega
        exact clarksGo_le co ls (some nextSt) (n + 1) _ hcn' _ _ _ heq2

theorem parseKK_counts (source : String) (co : Bool) (lines : List String)
    (rows : List Row) (cnts : SourceReadCounts) (h : parseKK source co lines = .ok (rows, cnts)) :
    cnts.classified + cnts.unclassified = cnts.total := by
  unfold parseKK at h
  split at h
  · cases h
  · cases hg : parseKKGo source co lines 0 0 with
    | error e => rw [hg] at h; cases h
    | ok t =>
      obtain ⟨rows2, num, cls⟩ := t
      rw [hg] at h
      simp only [Except.ok.injEq, Prod.mk.injEq] at h
      obtain ⟨-, rfl⟩ := h
      have hle := parseKKGo_le source co lines 0 0 (le_refl 0) rows2 num cls hg
      exact Nat.add_sub_cancel' hle

theorem parse_clarks_counts (co : Bool) (lines : List String)
    (rows : List Row) (cnts : SourceReadCounts) (h : parse_clarks co lines = .ok (rows, cnts)) :
    cnts.classified + cnts.unclassified = cnts.total := by
  unfold parse_clarks at h
  split at h
  · cases h
  · cases hg : clarksGo co lines.tail none 0 0 with
    | error e => rw [hg] at h; cases h
    | ok t =>
      obtain ⟨rows2, num, cls⟩ := t
      rw [hg] at h
      simp only [Except.ok.injEq, Prod.mk.injEq] at h
      obtain ⟨-, rfl⟩ := h
      have hle := clarksGo_le co lines.tail none 0 0 (le_refl 0) rows2 num cls hg
      exact Nat.add_sub_cancel' hle

theorem parseKKGo_filtered (source : String) : ∀ (ls : List String) (n c : Nat),
    ((parseKKGo source true ls n c).map fun t => t.2) =
      ((parseKKGo source false ls n c).map fun t => t.2) ∧
    (∀ rows n' c', parseKKGo source true ls n c = .ok (rows, n', c') →
      ∀ row ∈ rows, row.classified = "C")
  | [], n, c => by
    refine ⟨rfl, ?_⟩
    intro rows n' c' h row hrow
    simp only [parseKKGo, Except.ok.injEq, Prod.mk.injEq] at h
    obtain ⟨rfl, -, -⟩ := h
    cases hrow
  | line :: ls, n, c => by
    cases hk : kkLine source line with
    | error e =>
      constructor
      · simp only [parseKKGo, hk]
      · intro rows n' c' h
        simp only [parseKKGo, hk] at h
        cases h
    | ok row =>
      obtain ⟨ihmap, ihall⟩ := parseKKGo_filtered source ls (n + 1)
        (if (row.classified == "C") = true then c + 1 else c)
      cases hT : parseKKGo source true ls (n + 1)
          (if (row.classified == "C") = true then c + 1 else c) with
      | error e =>
        rw [hT] at ihmap
        cases hF : parseKKGo source false ls (n + 1)
            (if (row.classified == "C") = true then c + 1 else c) with
        | error e2 =>
          rw [hF] at ihmap
          simp only [Except.map] at ihmap
          cases ihmap
          constructor
          · simp only [parseKKGo, hk, hT, hF]
          · intro rows n' c' h
            simp only [parseKKGo, hk, hT] at h
            cases h
        | ok t => rw [hF] at ihmap; simp [Except.map] at ihmap
      | ok t =>
        obtain ⟨rowsT, nT, cT⟩ := t
        rw [hT] at ihmap
        cases hF : parseKKGo source false ls (n + 1)
            (if (row.classified == "C") = true then c + 1 else c) with
        | error e2 => rw [hF] at ihmap; simp [Except.map] at ihmap
        | ok t2 =>
          obtain ⟨rowsF, nF, cF⟩ := t2
          rw [hF] at ihmap
          simp only [Except.map, Except.ok.injEq] at ihmap
          constructor
          · simp only [parseKKGo, hk, hT, hF, Except.map, Except.ok.injEq]
            exact ihmap
          · intro rows n' c' h
            simp only [parseKKGo, hk, hT, Except.ok.injEq, Prod.mk.injEq] at h
            obtain ⟨rfl, -, -⟩ := h
            intro row2 hrow2
            rcases List.mem_append.mp hrow2 with hy | hmem
            · simp only [yieldRow] at hy
              by_cases hc : (row.classified == "C") = true
              · simp only [Bool.true_and, hc, if_true] at hy
                simp only [List.mem_singleton] at hy
                subst hy
                exact beq_iff_eq.mp hc
              · simp only [Bool.true_and, hc, if_false, if_true] at hy
                cases hy
            · exact ihall rowsT nT cT hT row2 hmem

theorem clarksGo_filtered : ∀ (ls : List String) (st : Option (String × Int)) (n c : Nat),
    ((clarksGo true ls st n c).map fun t => t.2) =
      ((clarksGo false ls st n c).map fun t => t.2) ∧
    (∀ rows n' c', clarksGo true ls st n c = .ok (rows, n', c') →
      ∀ row ∈ rows, row.classified = "C")
  | [], st, n, c => by
    refine ⟨rfl, ?_⟩
    intro rows n' c' h row hrow
    simp only [clarksGo, Except.ok.injEq, Prod.mk.injEq] at h
    obtain ⟨rfl, -, -⟩ := h
    cases hrow
  | line :: ls, st, n, c => by
    cases hk : clarksStep line st with
    | error e =>
      constructor
      · simp only [clarksGo, hk]
      · intro rows n' c' h
        simp only [clarksGo, hk] at h
        cases h
    | ok t0 =>
      obtain ⟨row, nextSt, incr⟩ := t0
      obtain ⟨ihmap, ihall⟩ := clarksGo_filtered ls (some nextSt) (n + 1)
        (if incr = true then c + 1 else c)
      cases hT : clarksGo true ls (some nextSt) (n + 1) (if incr = true then c + 1 else c) with
      | error e =>
        rw [hT] at ihmap
        cases hF : clarksGo false ls (some nextSt) (n + 1) (if incr = true then c + 1 else c) with
        | error e2 =>
          rw [hF] at ihmap
          simp only [Except.map] at ihmap
          cases ihmap
          constructor
          · simp only [clarksGo, hk, hT, hF]
          · intro rows n' c' h
            simp only [clarksGo, hk, hT] at h
            cases h
        | ok t => rw [hF] at ihmap; simp [Except.map] at ihmap
      | ok t =>
        obtain ⟨rowsT, nT, cT⟩ := t
        rw [hT] at ihmap
        cases hF : clarksGo false ls (some nextSt) (n + 1) (if incr = true then c + 1 else c) with
        | error e2 => rw [hF] at ihmap; simp [Except.map] at ihmap
        | ok t2 =>
          obtain ⟨rowsF, nF, cF⟩ := t2
          rw [hF] at ihmap
          simp only [Except.map, Except.ok.injEq] at ihmap
          constructor
          · simp only [clarksGo, hk, hT, hF, Except.map, Except.ok.injEq]
            exact ihmap
          · intro rows n' c' h
            simp only [clarksGo, hk, hT, Except.ok.injEq, Prod.mk.injEq] at h
            obtain ⟨rfl, -, -⟩ := h
            intro row2 hrow2
            rcases List.mem_append.mp hrow2 with hy | hmem
            · simp only [yieldRow] at hy
              by_cases hc : (row.classified == "C") = true
              · simp only [Bool.true_and, hc, if_true] at hy
                simp only [List.mem_singleton] at hy
                subst hy
                exact beq_iff_eq.mp hc
              · simp only [Bool.true_and, hc, if_false, if_true] at hy
                cases hy
            · exact ihall rowsT nT cT hT row2 hmem

theorem parseKK_filtered (source : String) (lines : List String) :
    ((parseKK source true lines).map fun p => p.2) =
      ((parseKK source false lines).map fun p => p.2) ∧
    (∀ rows cnts, parseKK source true lines = .ok (rows, cnts) →
      ∀ row ∈ rows, row.classified = "C") := by
  obtain ⟨ihmap, ihall⟩ := parseKKGo_filtered source lines 0 0
  by_cases hemp : lines = []
  · constructor
    · simp [parseKK, hemp]
    · intro rows cnts h
      simp [parseKK, hemp] at h
  · cases hT : parseKKGo source true lines 0 0 with
    | error e =>
      rw [hT] at ihmap
      cases hF : parseKKGo source false lines 0 0 with
      | error e2 =>
        rw [hF] at ihmap
        simp only [Except.map] at ihmap
        cases ihmap
        constructor
        · simp [parseKK, List.isEmpty_iff, hemp, hT, hF]
        · intro rows cnts h
          simp [parseKK, List.isEmpty_iff, hemp, hT] at h
      | ok t => rw [hF] at ihmap; simp [Except.map] at ihmap
    | ok t =>
      obtain ⟨rowsT, nT, cT⟩ := t
      rw [hT] at ihmap
      cases hF : parseKKGo source false lines 0 0 with
      | error e2 => rw [hF] at ihmap; simp [Except.map] at ihmap
      | ok t2 =>
        obtain ⟨rowsF, nF, cF⟩ := t2
        rw [hF] at ihmap
        simp only [Except.map, Except.ok.injEq, Prod.mk.injEq] at ihmap
        constructor
        · simp [parseKK, List.isEmpty_iff, hemp, hT, hF, ihmap.1, ihmap.2, Except.map]
        · intro rows cnts h
          simp only [parseKK, List.isEmpty_iff, hemp, if_false, hT, Except.ok.injEq,
            Prod.mk.injEq] at h
          obtain ⟨rfl, -⟩ := h
          exact ihall rowsT nT cT hT

theorem parse_clarks_filtered (lines : List String) :
    ((parse_clarks true lines).map fun p => p.2) =
      ((parse_clarks false lines).map fun p => p.2) ∧
    (∀ rows cnts, parse_clarks true lines = .ok (rows, cnts) →
      ∀ row ∈ rows, row.classified = "C") := by
  obtain ⟨ihmap, ihall⟩ := clarksGo_filtered lines.tail none 0 0
  by_cases hemp : lines.tail = []
  · constructor
    · simp [parse_clarks, hemp]
    · intro rows cnts h
      simp [parse_clarks, hemp] at h
  · cases hT : clarksGo true lines.tail none 0 0 with
    | error e =>
      rw [hT] at ihmap
      cases hF : clarksGo false lines.tail none 0 0 with
      | error e2 =>
        rw [hF] at ihmap
        simp only [Except.map] at ihmap
        cases ihmap
        constructor
        · simp [parse_clarks, List.isEmpty_iff, hemp, hT, hF]
        · intro rows cnts h
          simp [parse_clarks, List.isEmpty_iff, hemp, hT] at h
      | ok t => rw [hF] at ihmap; simp [Except.map] at ihmap
    | ok t =>
      obtain ⟨rowsT, nT, cT⟩ := t
      rw [hT] at ihmap
      cases hF : clarksGo false lines.tail none 0 0 with
      | error e2 => rw [hF] at ihmap; simp [Except.map] at ihmap
      | ok t2 =>
        obtain ⟨rowsF, nF, cF⟩ := t2
        rw [hF] at ihmap
        simp only [Except.map, Except.ok.injEq, Prod.mk.injEq] at ihmap
        constructor
        · simp [parse_clarks, List.isEmpty_iff, hemp, hT, hF, ihmap.1, ihmap.2, Except.map]
        · intro rows cnts h
          simp only [parse_clarks, List.isEmpty_iff, hemp, if_false, hT, Except.ok.injEq,
            Prod.mk.injEq] at h
          obtain ⟨rfl, -⟩ := h
          exact ihall rowsT nT cT hT

/-! ## Lemmas about the merge pipeline -/

theorem findRead_merge_rest : ∀ (rest : List (List Row)) (s : Store) (r : String),
    findRead (rest.foldl
        (fun st rows => insert_replace st (rows.filter fun row => row.classified == "C")) s) r =
      match lastMatch ((rest.map fun rows => rows.filter fun row => row.classified == "C").flatten) r with
      | some y => some y
      | none => findRead s r
  | [], s, r => by simp [lastMatch]
  | rows :: rest, s, r => by
    simp only [List.foldl_cons, List.map_cons, List.flatten_cons]
    rw [findRead_merge_rest rest, findRead_insert_replace, lastMatch_append]
    cases lastMatch ((rest.map fun rows => rows.filter fun row => row.classified == "C").flatten) r with
    | some y => simp
    | none => cases lastMatch (rows.filter fun row => row.classified == "C") r <;> simp

theorem mainMergeGo_keys (kaiju kraken clarks : List String) :
    ∀ (names : List String) (s0 s : Store),
    mainMergeGo kaiju kraken clarks names s0 = .ok s →
    ∀ r, (findRead s0 r).isSome = true → (findRead s r).isSome = true
  | [], s0, s, h => by
    simp only [mainMergeGo, Except.ok.injEq] at h
    subst h
    exact fun r hr => hr
  | name :: names, s0, s, h => by
    simp only [mainMergeGo] at h
    split at h
    · cases h
    · rename_i rows cnts heq
      intro r hr
      exact mainMergeGo_keys kaiju kraken clarks names _ s h r
        (findRead_isSome_insert_replace s0 rows r hr)

/-! ## The claims -/

/-- What the merge actually computes for a read (the amended C1): the last
classified row for that read across the lower-priority sources in merge
order, or source 0's row when no later source classified it. -/
def mergedEntrySpec (first : List Row) (rest : List (List Row)) (r : String) : Option Row :=
  match lastMatch ((rest.map fun rows => rows.filter fun row => row.classified == "C").flatten) r with
  | some y => some y
  | none => findRead first r

/-- C1 counterexample: kaiju (priority index 0) and kraken (index 1) classify
`read1` differently; the merged entry is kraken's call, not the
higher-priority (index 0) kaiju call the claim requires. -/
theorem c1_counterexample :
    main_merge "kaiju,kraken,clarks" ["C read1 5"] ["C read1 7"]
      ["NAME,LENGTH,ASSIGNMENT", "read2,stuff,junk"] = .ok [⟨"C", "read1", 7, "kraken"⟩] ∧
    (⟨"C", "read1", 7, "kraken"⟩ : Row) ≠ ⟨"C", "read1", 5, "kaiju"⟩ := by
  exact ⟨by decide, by decide⟩

/-- C1 (amended): when the first source has no duplicate read ids, the merge
succeeds and the final entry for a read is the one from the LAST source in
merge order producing a classified call for it (its last such record); when no
source classified it, the entry is source 0's record when present. -/
theorem c1_last_classified_wins (first : List Row) (rest : List (List Row)) (r : String)
    (h : (first.map Row.readname).Nodup) :
    ∃ s, merge_records (first :: rest) = .ok s ∧ findRead s r = mergedEntrySpec first rest r := by
  have h1 : insert_first first = .ok first := insert_first_nodup first h
  refine ⟨rest.foldl
      (fun st rows => insert_replace st (rows.filter fun row => row.classified == "C")) first,
    ?_, ?_⟩
  · simp only [merge_records, h1]
  · rw [findRead_merge_rest]
    rfl

/-- C1 witness: the amended statement evaluated on the conflicting two-source
run of the counterexample. -/
theorem c1_witness :
    (([⟨"C", "read1", 5, "kaiju"⟩] : List Row).map Row.readname).Nodup ∧
    ∃ s, merge_records [[⟨"C", "read1", 5, "kaiju"⟩], [⟨"C", "read1", 7, "kraken"⟩]] = .ok s ∧
      findRead s "read1" =
        mergedEntrySpec [⟨"C", "read1", 5, "kaiju"⟩] [[⟨"C", "read1", 7, "kraken"⟩]] "read1" :=
  ⟨by decide, c1_last_classified_wins [⟨"C", "read1", 5, "kaiju"⟩]
    [[⟨"C", "read1", 7, "kraken"⟩]] "read1" (by decide)⟩

/-- C2 counterexample: `"kaiju,kaiju,kraken"` (duplicate kaiju, missing
clarks) passes validation and is returned as a merge order instead of being a
fatal configuration error. -/
theorem c2_counterexample :
    validate_merge_order "kaiju,kaiju,kraken" = .ok ["kaiju", "kaiju", "kraken"] ∧
    "clarks" ∉ pySplitComma "kaiju,kaiju,kraken" := by
  exact ⟨by decide, by decide⟩

/-- C2 (amended): validation exits with status 2 exactly when some
comma-separated token is not one of the three known source names; duplicated
or missing source names are accepted, and an all-valid order is returned
unchanged. -/
theorem c2_unknown_token_only (merge_order : String) :
    (validate_merge_order merge_order = .error 2 ↔
      ∃ n ∈ pySplitComma merge_order, valid_names n = none) ∧
    ((∀ n ∈ pySplitComma merge_order, valid_names n ≠ none) →
      validate_merge_order merge_order = .ok (pySplitComma merge_order)) := by
  constructor
  · constructor
    · intro h
      by_contra hno
      push_neg at hno
      rw [validate_merge_order, validateGo_ok _ hno] at h
      cases h
    · intro h
      exact validateGo_bad _ h
  · intro h
    exact validateGo_ok _ h

/-- C2 witness: the amended statement evaluated on an unknown token and on a
duplicated-token order. -/
theorem c2_witness :
    validate_merge_order "bowtie" = .error 2 ∧
    validate_merge_order "kraken,kraken" = .ok ["kraken", "kraken"] :=
  ⟨(c2_unknown_token_only "bowtie").1.mpr ⟨"bowtie", by decide, by decide⟩,
   by
     have := (c2_unknown_token_only "kraken,kraken").2 (by decide)
     simpa [show pySplitComma "kraken,kraken" = ["kraken", "kraken"] from by decide] using this⟩

/-- C3: for a valid merge order (a permutation of the three source names), a
merge run that completes (the model is total, so termination is by
construction) keeps every read id of the highest-priority source's parse in
the sorted output. -/
theorem c3_first_source_in_output
    (merge_order : String) (kaiju kraken clarks : List String) (s : Store)
    (hperm : (pySplitComma merge_order).Perm ["kaiju", "kraken", "clarks"])
    (hok : main_merge merge_order kaiju kraken clarks = .ok s)
    (first : String) (rest : List String)
    (hsplit : pySplitComma merge_order = first :: rest)
    (rows : List Row) (cnts : SourceReadCounts)
    (hparse : run_parse first false (source_files kaiju kraken clarks first) = .ok (rows, cnts))
    (r : String) (hr : r ∈ rows.map Row.readname) :
    ∃ t ∈ get_merged s, t.2.1 = r := by
  have hvalid : validate_merge_order merge_order = .ok (first :: rest) := by
    rw [validate_merge_order, hsplit]
    apply validateGo_ok
    intro n hn
    have hmem : n ∈ ["kaiju", "kraken", "clarks"] := hperm.mem_iff.mp (by rw [hsplit]; exact hn)
    simp only [List.mem_cons, List.not_mem_nil, or_false] at hmem
    rcases hmem with rfl | rfl | rfl <;> decide
  simp only [main_merge, hvalid, hparse] at hok
  split at hok
  · cases hok
  · rename_i s0 heq
    have hs0 : s0 = rows := insert_first_ok_eq rows s0 heq
    subst hs0
    have hkey : (findRead s0 r).isSome = true := (findRead_isSome_iff s0 r).mpr hr
    have hkey2 := mainMergeGo_keys kaiju kraken clarks rest s0 s hok r hkey
    obtain ⟨row, hrow⟩ := Option.isSome_iff_exists.mp hkey2
    simp only [findRead] at hrow
    have hmem : row ∈ s := List.mem_of_find?_eq_some hrow
    have hpred := List.find?_some hrow
    refine ⟨(row.classified, row.readname, row.taxid), ?_, ?_⟩
    · simp only [get_merged, List.mem_map]
      exact ⟨row, (mem_sortByReadname row s).mpr hmem, rfl⟩
    · exact beq_iff_eq.mp hpred

/-- C3 witness: a concrete three-source run in which `r1`, present in the
highest-priority kaiju input, survives to the output. -/
theorem c3_witness : ∃ t ∈ get_merged [⟨"C", "r1", 7, "kraken"⟩], t.2.1 = "r1" :=
  c3_first_source_in_output "kaiju,kraken,clarks" ["C r1 5"] ["C r1 7"]
    ["NAME,LENGTH,ASSIGNMENT", "read2,stuff,junk"] [⟨"C", "r1", 7, "kraken"⟩]
    (by rw [show pySplitComma "kaiju,kraken,clarks" = ["kaiju", "kraken", "clarks"] from by decide])
    (by decide) "kaiju" ["kraken", "clarks"] (by decide)
    [⟨"C", "r1", 5, "kaiju"⟩] ⟨1, 1, 0⟩ (by decide) "r1" (by decide)

/-- C4: a CLARK-S row with no taxon-id column is NOT silently skipped.  As the
first data row it makes the parse raise `UnboundLocalError`; after a
classified row it yields a phantom record carrying the previous row's
classification and taxid under the new read id, and it still counts toward
the totals (`total = 2` here, the malformed row included). -/
theorem c4_clarks_malformed_row :
    parse_clarks false ["NAME,LENGTH,ASSIGNMENT", "read1/1,somejunk"] =
      .error .unboundLocalError ∧
    parse_clarks false ["NAME,LENGTH,ASSIGNMENT", "readA,junk,5", "read1/1,somejunk"] =
      .ok ([⟨"C", "readA", 5, "clarks"⟩, ⟨"C", "read1", 5, "clarks"⟩], ⟨2, 1, 1⟩) := by
  exact ⟨by decide, by decide⟩

/-- C5 counterexample: a duplicate read id within the first source makes the
bulk insert raise `IntegrityError` instead of replacing the earlier record. -/
theorem c5_counterexample :
    insert_first [⟨"C", "read1", 5, "kaiju"⟩, ⟨"C", "read1", 7, "kaiju"⟩] =
      .error .integrityError := by
  decide

/-- C5 (amended): the bulk insert of source 0 succeeds exactly when the
source's read ids are pairwise distinct (a duplicate violates the primary key
and fails the insert); last-write-wins holds only for the `INSERT OR REPLACE`
used for the later sources. -/
theorem c5_first_insert_fails_on_dup (rows : List Row) (s : Store) (x : Row) :
    ((∃ st, insert_first rows = .ok st) ↔ (rows.map Row.readname).Nodup) ∧
    findRead (sqlInsertOrReplace s x) x.readname = some x := by
  refine ⟨insert_first_ok_iff rows, ?_⟩
  rw [findRead_insertOrReplace]
  simp

/-- C5 witness: the amended statement evaluated on a duplicate-free insert and
on one replace. -/
theorem c5_witness :
    (∃ st, insert_first [⟨"C", "read1", 5, "kaiju"⟩, ⟨"C", "read2", 7, "kaiju"⟩] = .ok st) ∧
    findRead (sqlInsertOrReplace [⟨"U", "read1", 0, "kaiju"⟩] ⟨"C", "read1", 9, "kraken"⟩)
      "read1" = some ⟨"C", "read1", 9, "kraken"⟩ :=
  ⟨(c5_first_insert_fails_on_dup [⟨"C", "read1", 5, "kaiju"⟩, ⟨"C", "read2", 7, "kaiju"⟩]
      [] ⟨"C", "read1", 5, "kaiju"⟩).1.mpr (by decide),
   (c5_first_insert_fails_on_dup [] [⟨"U", "read1", 0, "kaiju"⟩] ⟨"C", "read1", 9, "kraken"⟩).2⟩

/-- C6 counterexample: on an empty merge store both totals are zero and the
`Total classified` percentage line divides by zero — the summary step
crashes instead of skipping the line. -/
theorem c6_counterexample : merged_summary [] = .error .zeroDivisionError := by
  simp [merged_summary, pyDiv, classified_total, unclassified_total, count_sources]

/-- C6 (amended): the per-category header lines are emitted only when their
total is non-zero and absent sources get no line, but the grand-total
percentage lines divide by `classified_total + unclassified_total`
unconditionally: the summary succeeds exactly when that denominator is
non-zero and crashes with `ZeroDivisionError` otherwise (e.g. on an empty
store). -/
theorem c6_summary_guard (s : Store) :
    ((∃ out, merged_summary s = .ok out) ↔
      classified_total s + unclassified_total s ≠ 0) ∧
    (∀ out, merged_summary s = .ok out →
      ((out.classifiedHeader = true ↔ classified_total s ≠ 0) ∧
       (out.unclassifiedHeader = true ↔ unclassified_total s ≠ 0))) := by
  have hcast : ((classified_total s : ℚ) + (unclassified_total s : ℚ) = 0) ↔
      classified_total s + unclassified_total s = 0 := by
    rw [← Nat.cast_add]
    exact Nat.cast_eq_zero
  by_cases hz : classified_total s + unclassified_total s = 0
  · have hq : (classified_total s : ℚ) + (unclassified_total s : ℚ) = 0 := hcast.mpr hz
    have herr : merged_summary s = .error .zeroDivisionError := by
      simp [merged_summary, pyDiv, hq]
    constructor
    · constructor
      · rintro ⟨out, hout⟩
        rw [herr] at hout
        cases hout
      · intro hne
        exact absurd hz hne
    · intro out hout
      rw [herr] at hout
      cases hout
  · have hq : ¬((classified_total s : ℚ) + (unclassified_total s : ℚ) = 0) :=
      fun hh => hz (hcast.mp hh)
    have hok : merged_summary s = .ok
        ⟨decide (classified_total s ≠ 0), decide (unclassified_total s ≠ 0),
         ((count_sources s).filter fun c => c.2.1 == "C").map (fun c => (c.1, c.2.2)),
         ((count_sources s).filter fun c => c.2.1 == "U").map (fun c => (c.1, c.2.2)),
         100 * (classified_total s : ℚ) /
           ((classified_total s : ℚ) + (unclassified_total s : ℚ)),
         100 * (unclassified_total s : ℚ) /
           ((classified_total s : ℚ) + (unclassified_total s : ℚ))⟩ := by
      simp only [merged_summary, pyDiv, if_neg hq]
    constructor
    · constructor
      · intro _
        exact hz
      · intro _
        exact ⟨_, hok⟩
    · intro out hout
      rw [hok] at hout
      cases hout
      constructor <;> simp [decide_eq_true_iff]

/-- C6 witness: the amended statement evaluated on a one-row store, whose
summary succeeds. -/
theorem c6_witness : ∃ out, merged_summary [⟨"C", "r", 5, "kaiju"⟩] = .ok out :=
  (c6_summary_guard [⟨"C", "r", 5, "kaiju"⟩]).1.mpr (by decide)

/-- C7 counterexample: a Kaiju read id keeps its `/1` suffix — the claim's
stripping is absent for Kaiju (and Kraken). -/
theorem c7_counterexample :
    parse_kaiju false ["C read1/1 5"] = .ok ([⟨"C", "read1/1", 5, "kaiju"⟩], ⟨1, 1, 0⟩) ∧
    "read1/1" ≠ "read1" := by
  exact ⟨by decide, by decide⟩

/-- C7 (amended): only the CLARK-S parser strips a trailing `/1` or `/2` from
field 0, so both mates collapse to one identifier there; Kaiju and Kraken use
field 1 verbatim, as the concrete runs show. -/
theorem c7_clarks_only_strips (f0 : String) :
    clarksReadname (f0 ++ "/1") = f0 ∧ clarksReadname (f0 ++ "/2") = f0 ∧
    parse_clarks false ["NAME,LENGTH,ASSIGNMENT", "pair/1,x,5", "pair/2,x,7"] =
      .ok ([⟨"C", "pair", 5, "clarks"⟩, ⟨"C", "pair", 7, "clarks"⟩], ⟨2, 2, 0⟩) ∧
    parse_kaiju false ["C pair/1 5", "C pair/2 7"] =
      .ok ([⟨"C", "pair/1", 5, "kaiju"⟩, ⟨"C", "pair/2", 7, "kaiju"⟩], ⟨2, 2, 0⟩) ∧
    parse_kraken false ["C pair/1 5"] = .ok ([⟨"C", "pair/1", 5, "kraken"⟩], ⟨1, 1, 0⟩) := by
  refine ⟨?_, ?_, by decide, by decide, by decide⟩
  · have hdata : (f0 ++ "/1").data = f0.data ++ ['/', '1'] := by cases f0; rfl
    have hends : strEndsWith (f0 ++ "/1") "/1" = true := by
      simp [strEndsWith, hdata, List.isSuffixOf]
    simp only [clarksReadname, hends, Bool.true_or, if_true]
    simp only [dropLast2, hdata]
    have h1 : f0.data ++ ['/', '1'] = (f0.data ++ ['/']) ++ ['1'] := by simp
    rw [h1, List.dropLast_concat, List.dropLast_concat]
  · have hdata : (f0 ++ "/2").data = f0.data ++ ['/', '2'] := by cases f0; rfl
    have hends : strEndsWith (f0 ++ "/2") "/2" = true := by
      simp [strEndsWith, hdata, List.isSuffixOf]
    have hor : (strEndsWith (f0 ++ "/2") "/1" || strEndsWith (f0 ++ "/2") "/2") = true := by
      rw [hends, Bool.or_true]
    simp only [clarksReadname, hor, if_true]
    simp only [dropLast2, hdata]
    have h1 : f0.data ++ ['/', '2'] = (f0.data ++ ['/']) ++ ['2'] := by simp
    rw [h1, List.dropLast_concat, List.dropLast_concat]

/-- C8: for every source parser, `classified_only=True` yields only rows
flagged `"C"`, while the `SourceReadCounts` (and a possible parse failure)
are identical to the `classified_only=False` run on the same file: every row
is counted regardless of filtering. -/
theorem c8_classified_only_counts (name : String) (lines : List String) :
    ((run_parse name true lines).map fun p => p.2) =
      ((run_parse name false lines).map fun p => p.2) ∧
    (∀ rows cnts, run_parse name true lines = .ok (rows, cnts) →
      ∀ row ∈ rows, row.classified = "C") := by
  by_cases h1 : (name == "kaiju") = true
  · simp only [run_parse, h1, if_true]
    exact parseKK_filtered "kaiju" lines
  · by_cases h2 : (name == "kraken") = true
    · simp only [run_parse, h1, h2, if_true, if_false]
      exact parseKK_filtered "kraken" lines
    · simp only [run_parse, h1, h2, if_false]
      exact parse_clarks_filtered lines

/-- C8 witness: the classified-only guarantee evaluated on a concrete Kaiju
parse containing one classified and one unclassified row. -/
theorem c8_witness : (⟨"C", "r1", 5, "kaiju"⟩ : Row).classified = "C" :=
  (c8_classified_only_counts "kaiju" ["C r1 5", "U r2 0"]).2
    [⟨"C", "r1", 5, "kaiju"⟩] ⟨2, 1, 1⟩ (by decide) ⟨"C", "r1", 5, "kaiju"⟩ (by decide)

/-- C9: whenever a parser runs to completion, the recorded counts satisfy
`classified + unclassified = total` exactly. -/
theorem c9_counts_invariant (name : String) (classified_only : Bool) (lines : List String)
    (rows : List Row) (cnts : SourceReadCounts)
    (h : run_parse name classified_only lines = .ok (rows, cnts)) :
    cnts.classified + cnts.unclassified = cnts.total := by
  unfold run_parse at h
  split at h
  · exact parseKK_counts "kaiju" classified_only lines rows cnts h
  · split at h
    · exact parseKK_counts "kraken" classified_only lines rows cnts h
    · exact parse_clarks_counts classified_only lines rows cnts h

/-- C9 witness: the invariant evaluated on a concrete Kraken parse. -/
theorem c9_witness : (⟨2, 1, 1⟩ : SourceReadCounts).classified +
    (⟨2, 1, 1⟩ : SourceReadCounts).unclassified = (⟨2, 1, 1⟩ : SourceReadCounts).total :=
  c9_counts_invariant "kraken" false ["C r1 5", "U r2 0"]
    [⟨"C", "r1", 5, "kraken"⟩, ⟨"U", "r2", 0, "kraken"⟩] ⟨2, 1, 1⟩ (by decide)

/-- C10: on an input with no data rows (empty file for Kaiju/Kraken, empty or
header-only file for CLARK-S) every parser ends with `UnboundLocalError` when
recording the counts (`num` was never bound), instead of returning an empty
sequence with zero counts. -/
theorem c10_empty_input_raises (classified_only : Bool) :
    parse_kaiju classified_only [] = .error .unboundLocalError ∧
    parse_kraken classified_only [] = .error .unboundLocalError ∧
    parse_clarks classified_only [] = .error .unboundLocalError ∧
    parse_clarks classified_only ["NAME,LENGTH,ASSIGNMENT"] = .error .unboundLocalError := by
  cases classified_only <;> exact ⟨by decide, by decide, by decide, by decide⟩

end MergeTax
